import Mathlib

/-!
Verification development for a small repository holding two scripts:
a webcam laser-pointer detector built on OpenCV primitives
(`LaserPointerDetector.detect_laser`, `LaserPointerDetector.detect_laser_hsv`)
and a terminal print-animation routine (`tiktokprint`).

Embedding conventions:
* Images are modelled as a pair of dimensions and a total pixel map.
* Python floating-point arithmetic is modelled as exact rational
  arithmetic over `ℚ`; Python `int(...)` truncation toward zero is
  modelled by `pyInt`.
* Calls into the third-party vision library that are pure arithmetic
  (`cvtColor`, `GaussianBlur`, `threshold`, `inRange`, `bitwise_or`,
  morphology) are modelled concretely below, following the library's
  documented fixed-point formulas.
* `cv2.findContours` is combinatorial library code external to the
  repository; its result is passed to the embedded detectors as an
  explicit list of `Contour` values.  A `Contour` carries the traced
  pixel coordinates together with the values the library computes for
  it (`cv2.contourArea`, `cv2.boundingRect`, `cv2.moments`).  The only
  fact ever assumed about the extraction itself is `ContoursOf`: every
  extracted contour is a nonempty trace of in-bounds nonzero pixels of
  the binary input, which is the documented behaviour of the routine.
-/

/-- A BGR color pixel (OpenCV channel order), 8-bit values as `Nat`. -/
structure BGR where
  b : Nat
  g : Nat
  r : Nat
deriving DecidableEq

/-- A color frame: dimensions plus a total pixel map. -/
structure Frame where
  w : Nat
  h : Nat
  pix : Nat → Nat → BGR

/-- A grayscale (or binary mask) image. -/
structure Img where
  w : Nat
  h : Nat
  pix : Nat → Nat → Nat

/-- An HSV pixel. -/
structure HsvPix where
  hue : Nat
  sat : Nat
  vch : Nat
deriving DecidableEq

/-- An HSV image. -/
structure HsvImg where
  w : Nat
  h : Nat
  pix : Nat → Nat → HsvPix

/-- Python `int(...)` on a rational value: truncation toward zero. -/
def pyInt (q : ℚ) : Int :=
  if 0 ≤ q then ⌊q⌋ else ⌈q⌉

/-- `cv2.cvtColor(frame, COLOR_BGR2GRAY)`: the library's fixed-point
grayscale formula `(4899*R + 9617*G + 1868*B + 2^13) >> 14`, which is
`0.299 R + 0.587 G + 0.114 B` rounded. -/
def cvtColorGray (f : Frame) : Img :=
  { w := f.w, h := f.h,
    pix := fun x y =>
      (4899 * (f.pix x y).r + 9617 * (f.pix x y).g + 1868 * (f.pix x y).b + 8192) / 16384 }

/-- OpenCV `BORDER_REFLECT_101` index mapping into `[0, n)`,
clamped so that the map is total for every `n`. -/
def reflect101 (n : Nat) (i : Int) : Nat :=
  let j : Int := if i < 0 then -i else if (n : Int) ≤ i then 2 * ((n : Int) - 1) - i else i
  min j.toNat (n - 1)

/-- Horizontal pass of `cv2.GaussianBlur(img, (5,5), 0)`: the fixed
binomial kernel `[1,4,6,4,1]/16` used for `sigma = 0`, with rounding. -/
def blurH (img : Img) : Img :=
  { img with
    pix := fun x y =>
      (1 * img.pix (reflect101 img.w ((x : Int) - 2)) y
        + 4 * img.pix (reflect101 img.w ((x : Int) - 1)) y
        + 6 * img.pix (reflect101 img.w (x : Int)) y
        + 4 * img.pix (reflect101 img.w ((x : Int) + 1)) y
        + 1 * img.pix (reflect101 img.w ((x : Int) + 2)) y
        + 8) / 16 }

/-- Vertical pass of `cv2.GaussianBlur(img, (5,5), 0)`. -/
def blurV (img : Img) : Img :=
  { img with
    pix := fun x y =>
      (1 * img.pix x (reflect101 img.h ((y : Int) - 2))
        + 4 * img.pix x (reflect101 img.h ((y : Int) - 1))
        + 6 * img.pix x (reflect101 img.h (y : Int))
        + 4 * img.pix x (reflect101 img.h ((y : Int) + 1))
        + 1 * img.pix x (reflect101 img.h ((y : Int) + 2))
        + 8) / 16 }

/-- `cv2.GaussianBlur(img, (5,5), 0)` as its two separable passes. -/
def gaussianBlur5 (img : Img) : Img :=
  blurV (blurH img)

/-- `cv2.threshold(img, t, 255, THRESH_BINARY)`: strictly-greater test. -/
def thresholdBin (t : Nat) (img : Img) : Img :=
  { img with pix := fun x y => if t < img.pix x y then 255 else 0 }

/-- An OpenCV contour: its traced points together with the values the
library computes for it with `cv2.contourArea` (`area`),
`cv2.boundingRect` (`rx, ry, rw, rh`) and `cv2.moments`
(`m00, m10, m01`). -/
structure Contour where
  points : List (Nat × Nat)
  area : ℚ
  m00 : ℚ
  m10 : ℚ
  m01 : ℚ
  rx : Nat
  ry : Nat
  rw : Nat
  rh : Nat
deriving DecidableEq

/-- The documented behaviour of `cv2.findContours` on a binary image:
each extracted contour is a nonempty trace of in-bounds pixels at which
the input is nonzero. -/
def ContoursOf (img : Img) (cs : List Contour) : Prop :=
  ∀ c ∈ cs, c.points ≠ [] ∧
    ∀ p ∈ c.points, p.1 < img.w ∧ p.2 < img.h ∧ img.pix p.1 p.2 ≠ 0

/-- The `LaserPointerDetector` object state: the three constructor
parameters plus the previous position used for smoothing. -/
structure Detector where
  min_area : Int
  max_area : Int
  brightness_threshold : Nat
  prev_pos : Option (Int × Int)
deriving DecidableEq

/-- `LaserPointerDetector.__init__` (defaults in the source are
`min_area=10`, `max_area=500`, `brightness_threshold=200`);
`prev_pos` starts as `None`. -/
def mkDetector (min_area max_area : Int) (brightness_threshold : Nat) : Detector :=
  { min_area := min_area, max_area := max_area,
    brightness_threshold := brightness_threshold, prev_pos := none }

/-- `np.mean` of the grayscale region of interest `gray[ry:ry+rh, rx:rx+rw]`. -/
def avgBrightness (gray : Img) (c : Contour) : ℚ :=
  let s := ((List.range c.rh).map (fun j =>
    ((List.range c.rw).map (fun i => gray.pix (c.rx + i) (c.ry + j))).sum)).sum
  (s : ℚ) / ((c.rw : ℚ) * (c.rh : ℚ))

/-- Python `max(l, key=key)`: the first element with maximal key
(`none` on an empty list, where Python raises). -/
def maxByKey {α : Type} (key : α → ℚ) : List α → Option α
  | [] => none
  | x :: xs => some (xs.foldl (fun best y => if key best < key y then y else best) x)

/-- The `valid_contours` list built by `detect_laser`: contours whose
area lies in `[min_area, max_area]`, paired with the mean brightness of
their bounding rectangle in the grayscale image. -/
def validPairs (d : Detector) (gray : Img) (cs : List Contour) : List (Contour × ℚ) :=
  cs.filterMap (fun c =>
    if (d.min_area : ℚ) ≤ c.area ∧ c.area ≤ (d.max_area : ℚ) then
      some (c, avgBrightness gray c)
    else none)

/-- `max(valid_contours, key=lambda x: x[1])` guarded by the
`valid_contours` emptiness check. -/
def selectBrightest (d : Detector) (gray : Img) (cs : List Contour) :
    Option (Contour × ℚ) :=
  maxByKey Prod.snd (validPairs d gray cs)

/-- Centroid from image moments: `(int(m10/m00), int(m01/m00))`. -/
def centroidOf (c : Contour) : Int × Int :=
  (pyInt (c.m10 / c.m00), pyInt (c.m01 / c.m00))

/-- The smoothing blend `int(0.7 * current + 0.3 * previous)`,
floating point modelled as exact rationals. -/
def blend (cur prev : Int) : Int :=
  pyInt (0.7 * (cur : ℚ) + 0.3 * (prev : ℚ))

/-- `LaserPointerDetector.detect_laser`.  The argument `cs` stands for
the output of `cv2.findContours(thresh, RETR_EXTERNAL, CHAIN_APPROX_SIMPLE)`
on the thresholded image computed below.  Returns the detection result
together with the updated detector state. -/
def detect_laser (d : Detector) (frame : Frame) (cs : List Contour) :
    Option (Int × Int) × Detector :=
  let gray := cvtColorGray frame
  let blurred := gaussianBlur5 gray
  let _thresh := thresholdBin d.brightness_threshold blurred
  if cs = [] then (none, d)
  else
    match selectBrightest d gray cs with
    | none => (none, d)
    | some (c, _) =>
      if c.m00 ≠ 0 then
        let p := centroidOf c
        match d.prev_pos with
        | some prev =>
          let q := (blend p.1 prev.1, blend p.2 prev.2)
          (some q, { d with prev_pos := some q })
        | none => (some p, { d with prev_pos := some p })
      else (none, d)

/-- Running the detector over a sequence of frames (with, for each
frame, the contours the library extracts from its thresholded image),
threading the detector state. -/
def runDetect : Detector → List (Frame × List Contour) →
    List (Option (Int × Int)) × Detector
  | d, [] => ([], d)
  | d, (f, cs) :: rest =>
    let step := detect_laser d f cs
    let restRun := runDetect step.2 rest
    (step.1 :: restRun.1, restRun.2)

/-- `cv2.inRange(hsv, lo, hi)`: 255 where every channel lies in the
inclusive range, 0 elsewhere. -/
def inRange (img : HsvImg) (lo hi : Nat × Nat × Nat) : Img :=
  { w := img.w, h := img.h,
    pix := fun x y =>
      if lo.1 ≤ (img.pix x y).hue ∧ (img.pix x y).hue ≤ hi.1 ∧
          lo.2.1 ≤ (img.pix x y).sat ∧ (img.pix x y).sat ≤ hi.2.1 ∧
          lo.2.2 ≤ (img.pix x y).vch ∧ (img.pix x y).vch ≤ hi.2.2
      then 255 else 0 }

/-- `cv2.bitwise_or` of two masks. -/
def bitwiseOr (a b : Img) : Img :=
  { w := a.w, h := a.h, pix := fun x y => Nat.lor (a.pix x y) (b.pix x y) }

/-- The `color_ranges` dictionary of `detect_laser_hsv`
(`none` models a `KeyError`). -/
def color_ranges (name : String) : Option ((Nat × Nat × Nat) × (Nat × Nat × Nat)) :=
  if name = ("red") then some ((0, 50, 50), (10, 255, 255))
  else if name = ("red2") then some ((170, 50, 50), (180, 255, 255))
  else if name = ("green") then some ((40, 50, 50), (80, 255, 255))
  else if name = ("blue") then some ((100, 50, 50), (130, 255, 255))
  else none

/-- The mask-building step of `detect_laser_hsv`: for red, the
`bitwise_or` of the two wrap-around `inRange` masks; otherwise a single
`inRange` with the color's range (`none` models the `KeyError` an
unknown color name would raise). -/
def buildMask (hsvImg : HsvImg) (laser_color : String) : Option Img :=
  if laser_color = ("red") then
    (color_ranges ("red")).bind (fun r1 =>
      (color_ranges ("red2")).map (fun r2 =>
        bitwiseOr (inRange hsvImg r1.1 r1.2) (inRange hsvImg r2.1 r2.2)))
  else
    (color_ranges laser_color).map (fun r => inRange hsvImg r.1 r.2)

/-- `cv2.erode` with the 3x3 ones kernel: a neighborhood minimum. -/
def erode3 (img : Img) : Img :=
  { img with
    pix := fun x y =>
      (([-1, 0, 1] : List Int).map (fun dy =>
        (([-1, 0, 1] : List Int).map (fun dx =>
          img.pix (reflect101 img.w ((x : Int) + dx)) (reflect101 img.h ((y : Int) + dy)))).foldl
            Nat.min 255)).foldl Nat.min 255 }

/-- `cv2.dilate` with the 3x3 ones kernel: a neighborhood maximum. -/
def dilate3 (img : Img) : Img :=
  { img with
    pix := fun x y =>
      (([-1, 0, 1] : List Int).map (fun dy =>
        (([-1, 0, 1] : List Int).map (fun dx =>
          img.pix (reflect101 img.w ((x : Int) + dx)) (reflect101 img.h ((y : Int) + dy)))).foldl
            Nat.max 0)).foldl Nat.max 0 }

/-- `cv2.morphologyEx(mask, MORPH_OPEN, ones(3,3))`. -/
def morphOpen3 (img : Img) : Img :=
  dilate3 (erode3 img)

/-- `cv2.morphologyEx(mask, MORPH_CLOSE, ones(3,3))`. -/
def morphClose3 (img : Img) : Img :=
  erode3 (dilate3 img)

/-- The contour-selection tail of `detect_laser_hsv`: take the largest
contour (`max(contours, key=cv2.contourArea)`), accept it only when its
area lies in `[min_area, max_area]` and its zeroth moment is nonzero,
and return its centroid. -/
def hsvSelect (d : Detector) (cs : List Contour) : Option (Int × Int) :=
  match maxByKey (fun c => c.area) cs with
  | none => none
  | some largest =>
    if (d.min_area : ℚ) ≤ largest.area ∧ largest.area ≤ (d.max_area : ℚ) then
      if largest.m00 ≠ 0 then some (centroidOf largest) else none
    else none

/-- `LaserPointerDetector.detect_laser_hsv`.  The HSV conversion of the
frame is the argument `hsvImg`; `cs` stands for the output of
`cv2.findContours` on the cleaned mask bound below.  The outer `Option`
models the `KeyError` an unknown color raises; the method never writes
any detector state, so the detector is returned unchanged. -/
def detect_laser_hsv (d : Detector) (hsvImg : HsvImg) (laser_color : String)
    (cs : List Contour) : Option (Option (Int × Int) × Detector) :=
  (buildMask hsvImg laser_color).map (fun mask =>
    let _cleaned := morphClose3 (morphOpen3 mask)
    (hsvSelect d cs, d))

/-- The alphabet of `tiktokprint`: a space followed by
`string.ascii_uppercase`. -/
def letters : String :=
  (" ABCDEFGHIJKLMNOPQRSTUVWXYZ")

/-- Python `str.upper()` (ASCII model): uppercase every character. -/
def pyUpper (s : String) : String :=
  String.mk (s.data.map Char.toUpper)

/-- The inner loop of `tiktokprint` for one slot: walk the alphabet,
overwrite the slot with each letter (a one-character string), and stop
as soon as the slot equals the target character of the text. -/
def innerLoop (target : Char) : List Char → String → String
  | [], slot => slot
  | c :: rest, _slot =>
    if String.singleton target = String.singleton c then String.singleton c
    else innerLoop target rest (String.singleton c)

/-- `tiktokprint`, reduced to its final output buffer: the printing and
the fixed delays are I/O and are dropped; each slot starts as the empty
string and is driven by the inner loop for its own target character. -/
def tiktokprint (text : String) : List String :=
  (pyUpper text).toList.map (fun c => innerLoop c letters.toList (""))

section Lemmas

/-- The fold inside `maxByKey` yields its seed or a list element. -/
lemma foldl_choose_mem {α : Type} (key : α → ℚ) :
    ∀ (l : List α) (a : α),
      l.foldl (fun best y => if key best < key y then y else best) a = a ∨
      l.foldl (fun best y => if key best < key y then y else best) a ∈ l := by
  intro l
  induction l with
  | nil => intro a; exact Or.inl rfl
  | cons y ys ih =>
    intro a
    simp only [List.foldl_cons]
    rcases ih (if key a < key y then y else a) with h | h
    · by_cases hk : key a < key y
      · right; rw [h, if_pos hk]; exact List.mem_cons_self _ _
      · left; rw [h, if_neg hk]
    · right; exact List.mem_cons_of_mem _ h

/-- `maxByKey` returns `none` exactly on the empty list. -/
lemma maxByKey_eq_none {α : Type} (key : α → ℚ) (l : List α) :
    maxByKey key l = none ↔ l = [] := by
  cases l <;> simp [maxByKey]

/-- An element returned by `maxByKey` belongs to the list. -/
lemma maxByKey_mem {α : Type} (key : α → ℚ) {l : List α} {x : α}
    (h : maxByKey key l = some x) : x ∈ l := by
  cases l with
  | nil => simp [maxByKey] at h
  | cons y ys =>
    simp only [maxByKey, Option.some.injEq] at h
    rcases foldl_choose_mem key ys y with h2 | h2
    · rw [← h, h2]; exact List.mem_cons_self _ _
    · rw [← h]; exact List.mem_cons_of_mem _ h2

/-- Membership in the `valid_contours` list of `detect_laser`. -/
lemma mem_validPairs {d : Detector} {gray : Img} {cs : List Contour}
    {c : Contour} {q : ℚ} :
    (c, q) ∈ validPairs d gray cs ↔
      c ∈ cs ∧ ((d.min_area : ℚ) ≤ c.area ∧ c.area ≤ (d.max_area : ℚ)) ∧
        q = avgBrightness gray c := by
  simp only [validPairs, List.mem_filterMap]
  constructor
  · rintro ⟨a, ha, hif⟩
    by_cases hr : (d.min_area : ℚ) ≤ a.area ∧ a.area ≤ (d.max_area : ℚ)
    · rw [if_pos hr] at hif
      obtain ⟨rfl, rfl⟩ : a = c ∧ avgBrightness gray a = q := by
        constructor <;> [exact congrArg Prod.fst (Option.some.inj hif);
          exact congrArg Prod.snd (Option.some.inj hif)]
      exact ⟨ha, hr, rfl⟩
    · rw [if_neg hr] at hif; exact absurd hif (by simp)
  · rintro ⟨hc, hr, rfl⟩
    exact ⟨c, hc, by rw [if_pos hr]⟩

/-- The `valid_contours` list is empty exactly when no contour's area
lies in the configured range. -/
lemma validPairs_eq_nil {d : Detector} {gray : Img} {cs : List Contour} :
    validPairs d gray cs = [] ↔
      ∀ c ∈ cs, ¬((d.min_area : ℚ) ≤ c.area ∧ c.area ≤ (d.max_area : ℚ)) := by
  simp only [validPairs, List.filterMap_eq_nil_iff]
  constructor
  · intro h c hc hr
    have := h c hc
    rw [if_pos hr] at this
    simp at this
  · intro h c hc
    rw [if_neg (h c hc)]

/-- `detect_laser` rewritten as a case split on the selected contour:
the dataflow of the source with the let bindings resolved. -/
lemma detect_laser_spec (d : Detector) (frame : Frame) (cs : List Contour) :
    detect_laser d frame cs =
      match selectBrightest d (cvtColorGray frame) cs with
      | none => (none, d)
      | some (c, _) =>
        if c.m00 ≠ 0 then
          match d.prev_pos with
          | some prev =>
            (some (blend (centroidOf c).1 prev.1, blend (centroidOf c).2 prev.2),
              { d with prev_pos := some (blend (centroidOf c).1 prev.1, blend (centroidOf c).2 prev.2) })
          | none => (some (centroidOf c), { d with prev_pos := some (centroidOf c) })
        else (none, d) := by
  by_cases hcs : cs = []
  · subst hcs
    simp [detect_laser, selectBrightest, validPairs, maxByKey]
  · simp only [detect_laser, if_neg hcs]

end Lemmas

section Fixtures

/-- An all-black 10x10 test frame. -/
def frame0 : Frame :=
  { w := 10, h := 10, pix := fun _ _ => { b := 0, g := 0, r := 0 } }

/-- A test contour with centroid (2, 3). -/
def c0 : Contour :=
  { points := [(0, 0)], area := 50, m00 := 1, m10 := 2, m01 := 3,
    rx := 0, ry := 0, rw := 1, rh := 1 }

/-- A test contour with centroid (20, 20). -/
def cA : Contour :=
  { points := [(0, 0)], area := 50, m00 := 1, m10 := 20, m01 := 20,
    rx := 0, ry := 0, rw := 1, rh := 1 }

/-- A fresh test detector accepting areas in [0, 100]. -/
def d0 : Detector := mkDetector 0 100 200

/-- A test detector whose previous position is (10, 10). -/
def dPrev : Detector :=
  { min_area := 0, max_area := 100, brightness_threshold := 200,
    prev_pos := some (10, 10) }

/-- A constant HSV test image whose pixels fall in the first red range. -/
def hsv0 : HsvImg :=
  { w := 10, h := 10, pix := fun _ _ => { hue := 0, sat := 60, vch := 60 } }

end Fixtures

/-- C1: whenever `detect_laser` finds a qualifying contour with nonzero
zeroth moment and a previous position exists, the returned coordinate is
the componentwise blend `int(0.7 * current + 0.3 * previous)` of the raw
centroid with the previous position. -/
theorem laser_blend_smoothing (d : Detector) (frame : Frame) (cs : List Contour)
    (c : Contour) (b : ℚ) (prev : Int × Int)
    (hsel : selectBrightest d (cvtColorGray frame) cs = some (c, b))
    (hm : c.m00 ≠ 0) (hprev : d.prev_pos = some prev) :
    (detect_laser d frame cs).1 =
      some (blend (centroidOf c).1 prev.1, blend (centroidOf c).2 prev.2) := by
  rw [detect_laser_spec, hsel]
  simp only [if_pos hm, hprev]

/-- C1 witness: with previous position (10, 10) and a contour of raw
centroid (20, 20), the detector returns the blend (17, 17). -/
theorem laser_blend_smoothing_witness :
    (detect_laser dPrev frame0 [cA]).1 = some (17, 17) := by
  have hsel : selectBrightest dPrev (cvtColorGray frame0) [cA] =
      some (cA, avgBrightness (cvtColorGray frame0) cA) := by
    simp only [selectBrightest, validPairs, List.filterMap, maxByKey]
    norm_num [dPrev, cA]
  have h := laser_blend_smoothing dPrev frame0 [cA] cA
    (avgBrightness (cvtColorGray frame0) cA) (10, 10) hsel (by norm_num [cA]) rfl
  rw [h]
  norm_num [blend, centroidOf, pyInt, cA]

/-- C2: `detect_laser` returns no detection exactly when no extracted
contour has area within `[min_area, max_area]`, or the selected
brightest qualifying contour has zeroth moment zero; otherwise it
returns a coordinate pair. -/
theorem laser_none_iff (d : Detector) (frame : Frame) (cs : List Contour) :
    (detect_laser d frame cs).1 = none ↔
      (∀ c ∈ cs, ¬((d.min_area : ℚ) ≤ c.area ∧ c.area ≤ (d.max_area : ℚ))) ∨
      (∃ c b, selectBrightest d (cvtColorGray frame) cs = some (c, b) ∧ c.m00 = 0) := by
  rw [detect_laser_spec]
  cases hsel : selectBrightest d (cvtColorGray frame) cs with
  | none =>
    have hnil : validPairs d (cvtColorGray frame) cs = [] :=
      (maxByKey_eq_none Prod.snd _).mp hsel
    simp only [true_iff]
    exact Or.inl (validPairs_eq_nil.mp hnil)
  | some cb =>
    obtain ⟨c, b⟩ := cb
    by_cases hm : c.m00 = 0
    · constructor
      · intro _
        exact Or.inr ⟨c, b, rfl, hm⟩
      · intro _
        simp [hm]
    · have hmem : (c, b) ∈ validPairs d (cvtColorGray frame) cs :=
        maxByKey_mem Prod.snd hsel
      have hrange := (mem_validPairs.mp hmem).2.1
      have hcmem := (mem_validPairs.mp hmem).1
      constructor
      · intro hnone
        exfalso
        cases hp : d.prev_pos with
        | none => rw [hp] at hnone; simp [hm] at hnone
        | some prev => rw [hp] at hnone; simp [hm] at hnone
      · rintro (hall | ⟨c', b', heq, hm'⟩)
        · exact absurd hrange (hall c hcmem)
        · have hpair : (c, b) = (c', b') := Option.some.inj heq
          have hcc : c = c' := congrArg Prod.fst hpair
          exact absurd (hcc ▸ hm') hm

/-- C3: a contour enters the `valid_contours` list of `detect_laser`
exactly when it came from the extracted contours and its area lies in
the inclusive range `[min_area, max_area]`. -/
theorem laser_area_filter (d : Detector) (frame : Frame) (cs : List Contour)
    (c : Contour) :
    (∃ b, (c, b) ∈ validPairs d (cvtColorGray frame) cs) ↔
      c ∈ cs ∧ (d.min_area : ℚ) ≤ c.area ∧ c.area ≤ (d.max_area : ℚ) := by
  constructor
  · rintro ⟨b, hb⟩
    have := mem_validPairs.mp hb
    exact ⟨this.1, this.2.1⟩
  · rintro ⟨hc, hr⟩
    exact ⟨avgBrightness (cvtColorGray frame) c, mem_validPairs.mpr ⟨hc, hr, rfl⟩⟩

/-- C9: `prev_pos` after a call to `detect_laser` is the previous value
when the call returns no detection, and is exactly the returned
coordinate when the call returns one. -/
theorem laser_prev_pos_update (d : Detector) (frame : Frame) (cs : List Contour) :
    ((detect_laser d frame cs).2).prev_pos =
      match (detect_laser d frame cs).1 with
      | none => d.prev_pos
      | some p => some p := by
  rw [detect_laser_spec]
  cases hsel : selectBrightest d (cvtColorGray frame) cs with
  | none => rfl
  | some cb =>
    obtain ⟨c, b⟩ := cb
    by_cases hm : c.m00 = 0
    · simp [hm]
    · cases hp : d.prev_pos with
      | none => simp [hm, hp]
      | some prev => simp [hm, hp]

section DarkFrame

/-- A grayscale image all of whose in-bounds pixels are at most `t`. -/
def DarkLe (img : Img) (t : Nat) : Prop :=
  ∀ x y, x < img.w → y < img.h → img.pix x y ≤ t

/-- The reflected index stays in bounds for a nonempty axis. -/
lemma reflect101_lt {n : Nat} (hn : 0 < n) (i : Int) : reflect101 n i < n := by
  unfold reflect101
  exact Nat.lt_of_le_of_lt (Nat.min_le_right _ _) (by omega)

/-- The horizontal blur pass keeps an all-dark image all dark: the
rounded binomial average of values at most `t` is at most `t`. -/
lemma blurH_dark {img : Img} {t : Nat} (hd : DarkLe img t) : DarkLe (blurH img) t := by
  intro x y hx hy
  have hx' : x < img.w := hx
  have hy' : y < img.h := hy
  have hw : 0 < img.w := Nat.pos_of_ne_zero (by omega)
  have hs : ∀ i : Int, img.pix (reflect101 img.w i) y ≤ t :=
    fun i => hd _ y (reflect101_lt hw i) hy'
  have h1 := hs ((x : Int) - 2)
  have h2 := hs ((x : Int) - 1)
  have h3 := hs (x : Int)
  have h4 := hs ((x : Int) + 1)
  have h5 := hs ((x : Int) + 2)
  show (1 * img.pix (reflect101 img.w ((x : Int) - 2)) y
    + 4 * img.pix (reflect101 img.w ((x : Int) - 1)) y
    + 6 * img.pix (reflect101 img.w (x : Int)) y
    + 4 * img.pix (reflect101 img.w ((x : Int) + 1)) y
    + 1 * img.pix (reflect101 img.w ((x : Int) + 2)) y
    + 8) / 16 ≤ t
  omega

/-- The vertical blur pass keeps an all-dark image all dark. -/
lemma blurV_dark {img : Img} {t : Nat} (hd : DarkLe img t) : DarkLe (blurV img) t := by
  intro x y hx hy
  have hx' : x < img.w := hx
  have hy' : y < img.h := hy
  have hh : 0 < img.h := Nat.pos_of_ne_zero (by omega)
  have hs : ∀ i : Int, img.pix x (reflect101 img.h i) ≤ t :=
    fun i => hd x _ hx' (reflect101_lt hh i)
  have h1 := hs ((y : Int) - 2)
  have h2 := hs ((y : Int) - 1)
  have h3 := hs (y : Int)
  have h4 := hs ((y : Int) + 1)
  have h5 := hs ((y : Int) + 2)
  show (1 * img.pix x (reflect101 img.h ((y : Int) - 2))
    + 4 * img.pix x (reflect101 img.h ((y : Int) - 1))
    + 6 * img.pix x (reflect101 img.h (y : Int))
    + 4 * img.pix x (reflect101 img.h ((y : Int) + 1))
    + 1 * img.pix x (reflect101 img.h ((y : Int) + 2))
    + 8) / 16 ≤ t
  omega

/-- Thresholding an image whose in-bounds pixels never exceed the
threshold produces the all-zero binary image in bounds. -/
lemma thresholdBin_dark {img : Img} {t : Nat} (hd : DarkLe img t) :
    ∀ x y, x < img.w → y < img.h → (thresholdBin t img).pix x y = 0 := by
  intro x y hx hy
  show (if t < img.pix x y then 255 else 0) = 0
  rw [if_neg (Nat.not_lt.mpr (hd x y hx hy))]

end DarkFrame

/-- C4: on an all-dark frame, one whose every in-bounds grayscale pixel
is at or below the brightness threshold, the thresholded image is all
zero, so contour extraction finds nothing and `detect_laser` returns no
detection. -/
theorem laser_dark_none (d : Detector) (frame : Frame) (cs : List Contour)
    (hdark : DarkLe (cvtColorGray frame) d.brightness_threshold)
    (hcs : ContoursOf
      (thresholdBin d.brightness_threshold (gaussianBlur5 (cvtColorGray frame))) cs) :
    (detect_laser d frame cs).1 = none := by
  have hblur : DarkLe (gaussianBlur5 (cvtColorGray frame)) d.brightness_threshold :=
    blurV_dark (blurH_dark hdark)
  have hcs_nil : cs = [] := by
    rw [List.eq_nil_iff_forall_not_mem]
    intro c hc
    obtain ⟨hne, hpts⟩ := hcs c hc
    obtain ⟨p, hp⟩ := List.exists_mem_of_ne_nil _ hne
    obtain ⟨hx, hy, hnz⟩ := hpts p hp
    exact hnz (thresholdBin_dark hblur p.1 p.2 hx hy)
  subst hcs_nil
  rw [detect_laser_spec]
  simp [selectBrightest, validPairs, maxByKey]

/-- C4 witness: an all-black frame with an empty contour extraction
yields no detection. -/
theorem laser_dark_none_witness : (detect_laser d0 frame0 []).1 = none :=
  laser_dark_none d0 frame0 []
    (fun x y _ _ => by norm_num [cvtColorGray, frame0, d0, mkDetector])
    (fun c hc => absurd hc (List.not_mem_nil c))

/-- Bitwise OR of two 0-or-255 mask pixels is an OR of the tests. -/
lemma lor_mask (pA pB : Prop) [Decidable pA] [Decidable pB] :
    Nat.lor (if pA then 255 else 0) (if pB then 255 else 0) =
      if pA ∨ pB then 255 else 0 := by
  by_cases hA : pA
  · by_cases hB : pB
    · rw [if_pos hA, if_pos hB, if_pos (Or.inl hA)]; decide
    · rw [if_pos hA, if_neg hB, if_pos (Or.inl hA)]; decide
  · by_cases hB : pB
    · rw [if_neg hA, if_pos hB, if_pos (Or.inr hB)]; decide
    · rw [if_neg hA, if_neg hB, if_neg (by tauto)]; decide

/-- C5: for `laser_color='red'`, the mask `detect_laser_hsv` builds
before morphological cleanup is the logical OR of the two wrap-around
`inRange` tests: a pixel is set (255) exactly when its hue lies in
[0, 10] or in [170, 180], with saturation and value in [50, 255] in
either case, and is 0 otherwise. -/
theorem hsv_red_mask (img : HsvImg) (x y : Nat) :
    (buildMask img ("red")).map (fun m => m.pix x y) =
      some (if ((img.pix x y).hue ≤ 10 ∧
            50 ≤ (img.pix x y).sat ∧ (img.pix x y).sat ≤ 255 ∧
            50 ≤ (img.pix x y).vch ∧ (img.pix x y).vch ≤ 255) ∨
          (170 ≤ (img.pix x y).hue ∧ (img.pix x y).hue ≤ 180 ∧
            50 ≤ (img.pix x y).sat ∧ (img.pix x y).sat ≤ 255 ∧
            50 ≤ (img.pix x y).vch ∧ (img.pix x y).vch ≤ 255)
        then 255 else 0) := by
  have hb : buildMask img ("red") =
      some (bitwiseOr (inRange img (0, 50, 50) (10, 255, 255))
        (inRange img (170, 50, 50) (180, 255, 255))) := rfl
  rw [hb, Option.map_some']
  refine congrArg some ?_
  show Nat.lor
      (if 0 ≤ (img.pix x y).hue ∧ (img.pix x y).hue ≤ 10 ∧
          50 ≤ (img.pix x y).sat ∧ (img.pix x y).sat ≤ 255 ∧
          50 ≤ (img.pix x y).vch ∧ (img.pix x y).vch ≤ 255 then 255 else 0)
      (if 170 ≤ (img.pix x y).hue ∧ (img.pix x y).hue ≤ 180 ∧
          50 ≤ (img.pix x y).sat ∧ (img.pix x y).sat ≤ 255 ∧
          50 ≤ (img.pix x y).vch ∧ (img.pix x y).vch ≤ 255 then 255 else 0) = _
  rw [lor_mask]
  exact if_congr (by omega) rfl rfl

/-- C6: `detect_laser_hsv` reduces to the selection `hsvSelect`, which
returns a centroid exactly when the single largest contour exists, its
area lies in `[min_area, max_area]` and its zeroth moment is nonzero;
any smaller in-range contour is never consulted. -/
theorem hsv_largest_only (d : Detector) (hsvImg : HsvImg) (color : String)
    (cs : List Contour) :
    ((detect_laser_hsv d hsvImg color cs).map Prod.fst =
      (buildMask hsvImg color).map (fun _ => hsvSelect d cs)) ∧
    ∀ p, hsvSelect d cs = some p ↔
      ∃ L, maxByKey (fun c => c.area) cs = some L ∧
        ((d.min_area : ℚ) ≤ L.area ∧ L.area ≤ (d.max_area : ℚ)) ∧
        L.m00 ≠ 0 ∧ p = centroidOf L := by
  constructor
  · cases hb : buildMask hsvImg color with
    | none => simp [detect_laser_hsv, hb]
    | some m => simp [detect_laser_hsv, hb]
  · intro p
    constructor
    · intro h
      unfold hsvSelect at h
      cases hmax : maxByKey (fun c => c.area) cs with
      | none => rw [hmax] at h; exact absurd h (by simp)
      | some L =>
        rw [hmax] at h
        have h2 : (if (d.min_area : ℚ) ≤ L.area ∧ L.area ≤ (d.max_area : ℚ) then
            if L.m00 ≠ 0 then some (centroidOf L) else none
          else none) = some p := h
        by_cases hr : (d.min_area : ℚ) ≤ L.area ∧ L.area ≤ (d.max_area : ℚ)
        · rw [if_pos hr] at h2
          by_cases hm : L.m00 = 0
          · rw [if_neg (not_not.mpr hm)] at h2
            exact absurd h2 (by simp)
          · rw [if_pos hm] at h2
            exact ⟨L, rfl, hr, hm, (Option.some.inj h2).symm⟩
        · rw [if_neg hr] at h2
          exact absurd h2 (by simp)
    · rintro ⟨L, hL, hr, hm, hp⟩
      unfold hsvSelect
      rw [hL]
      show (if (d.min_area : ℚ) ≤ L.area ∧ L.area ≤ (d.max_area : ℚ) then
          if L.m00 ≠ 0 then some (centroidOf L) else none
        else none) = some p
      rw [if_pos hr, if_pos hm, hp]

/-- C10: `detect_laser_hsv` writes no detector state, returning the
detector unchanged whenever it runs, and its result reads no detector
state beyond `min_area` and `max_area`. -/
theorem hsv_stateless :
    (∀ (d : Detector) (hsvImg : HsvImg) (color : String) (cs : List Contour) r d',
      detect_laser_hsv d hsvImg color cs = some (r, d') → d' = d) ∧
    (∀ (d₁ d₂ : Detector) (hsvImg : HsvImg) (color : String) (cs : List Contour),
      d₁.min_area = d₂.min_area → d₁.max_area = d₂.max_area →
      (detect_laser_hsv d₁ hsvImg color cs).map Prod.fst =
        (detect_laser_hsv d₂ hsvImg color cs).map Prod.fst) := by
  constructor
  · intro d hsvImg color cs r d' hcall
    unfold detect_laser_hsv at hcall
    cases hb : buildMask hsvImg color with
    | none => rw [hb] at hcall; exact absurd hcall (by simp)
    | some m =>
      rw [hb] at hcall
      have h2 : some (hsvSelect d cs, d) = some (r, d') := hcall
      exact (congrArg Prod.snd (Option.some.inj h2)).symm
  · intro d₁ d₂ hsvImg color cs h1 h2
    have hsel : hsvSelect d₁ cs = hsvSelect d₂ cs := by
      unfold hsvSelect
      rw [h1, h2]
    cases hb : buildMask hsvImg color with
    | none => simp [detect_laser_hsv, hb]
    | some m => simp [detect_laser_hsv, hb, hsel]

/-- C10 witness: a concrete call leaves the detector unchanged, and two
detectors sharing only `min_area` and `max_area` give the same result. -/
theorem hsv_stateless_witness :
    d0 = d0 ∧ (detect_laser_hsv d0 hsv0 ("red") [c0]).map Prod.fst =
      (detect_laser_hsv dPrev hsv0 ("red") [c0]).map Prod.fst :=
  ⟨hsv_stateless.1 d0 hsv0 ("red") [c0] (hsvSelect d0 [c0]) d0 rfl,
   hsv_stateless.2 d0 dPrev hsv0 ("red") [c0] rfl rfl⟩

/-- The inner loop does stop at the target when the target occurs in
the remaining alphabet, leaving the slot equal to it. -/
lemma innerLoop_of_mem (t : Char) :
    ∀ (ls : List Char) (s : String), t ∈ ls →
      innerLoop t ls s = String.singleton t := by
  intro ls
  induction ls with
  | nil => intro s hs; exact absurd hs (List.not_mem_nil t)
  | cons c rest ih =>
    intro s hs
    by_cases hc : t = c
    · subst hc
      simp [innerLoop]
    · have hrest : t ∈ rest := by
        rcases List.mem_cons.mp hs with h | h
        · exact absurd h hc
        · exact h
      have hne : ¬(String.singleton t = String.singleton c) := by
        intro hcontra
        apply hc
        have : (String.singleton t).data = (String.singleton c).data :=
          congrArg String.data hcontra
        simpa [String.singleton] using this
      rw [innerLoop, if_neg hne]
      exact ih _ hrest

/-- C7 counterexample: the claim fails as stated for input strings with
characters outside the alphabet: on input "1" the inner loop exhausts
the alphabet, the slot ends as "Z", and the target character "1" is
never matched. -/
theorem tiktok_slot_counterexample :
    tiktokprint ("1") = [("Z")] ∧ ("Z") ≠ String.singleton '1' := by
  constructor
  · decide
  · decide

/-- C7 (amended): for every position of the upper-cased input whose
character belongs to the fixed alphabet (space plus A-Z), the inner
loop terminates with the output slot equal to that target character. -/
theorem tiktok_slot_matches (text : String) (x : Nat) (t : Char)
    (hget : (pyUpper text).toList.get? x = some t)
    (ht : t ∈ letters.toList) :
    (tiktokprint text).get? x = some (String.singleton t) := by
  unfold tiktokprint
  rw [List.get?_map, hget, Option.map_some']
  exact congrArg some (innerLoop_of_mem t letters.toList ("") ht)

/-- C7 witness: on input "ab", position 0 upper-cases to the alphabet
letter A and the slot ends equal to "A". -/
theorem tiktok_slot_matches_witness :
    (tiktokprint ("ab")).get? 0 = some (String.singleton 'A') :=
  tiktok_slot_matches ("ab") 0 'A' (by decide) (by decide)

section Bounds

/-- A coordinate pair of non-negative integers within frame bounds. -/
def InBoundsPt (w h : Nat) (p : Int × Int) : Prop :=
  0 ≤ p.1 ∧ p.1 < (w : Int) ∧ 0 ≤ p.2 ∧ p.2 < (h : Int)

/-- The property of the library's image moments for contours traced
inside a `w` by `h` frame: when the zeroth moment is nonzero, the exact
centroid lies within the pixel grid. -/
def GoodContours (w h : Nat) (cs : List Contour) : Prop :=
  ∀ c ∈ cs, c.m00 ≠ 0 →
    (0 ≤ c.m10 / c.m00 ∧ c.m10 / c.m00 ≤ (w : ℚ) - 1) ∧
    (0 ≤ c.m01 / c.m00 ∧ c.m01 / c.m00 ≤ (h : ℚ) - 1)

/-- Truncating a rational in `[0, n-1]` yields an integer in `[0, n)`. -/
lemma pyInt_bounds {q : ℚ} {n : Nat} (h0 : 0 ≤ q) (h1 : q ≤ (n : ℚ) - 1) :
    0 ≤ pyInt q ∧ pyInt q < (n : Int) := by
  rw [pyInt, if_pos h0]
  constructor
  · exact Int.le_floor.mpr (by exact_mod_cast h0)
  · have hfl : (⌊q⌋ : ℚ) ≤ (n : ℚ) - 1 := le_trans (Int.floor_le q) h1
    have h2 : ⌊q⌋ ≤ (n : Int) - 1 := by exact_mod_cast hfl
    omega

/-- The 70/30 blend of two in-bounds coordinates stays in bounds. -/
lemma blend_bounds {a b : Int} {n : Nat} (ha0 : 0 ≤ a) (ha1 : a < (n : Int))
    (hb0 : 0 ≤ b) (hb1 : b < (n : Int)) :
    0 ≤ blend a b ∧ blend a b < (n : Int) := by
  unfold blend
  have haq0 : (0 : ℚ) ≤ (a : ℚ) := by exact_mod_cast ha0
  have hbq0 : (0 : ℚ) ≤ (b : ℚ) := by exact_mod_cast hb0
  have haq1 : (a : ℚ) ≤ (n : ℚ) - 1 := by
    have : a ≤ (n : Int) - 1 := by omega
    exact_mod_cast this
  have hbq1 : (b : ℚ) ≤ (n : ℚ) - 1 := by
    have : b ≤ (n : Int) - 1 := by omega
    exact_mod_cast this
  apply pyInt_bounds
  · linarith
  · linarith

/-- One call to `detect_laser` returns only in-bounds coordinates and
keeps `prev_pos` in bounds, provided the stored previous position was
in bounds and the extracted contours have in-bounds centroids. -/
lemma detect_laser_step_inbounds (w h : Nat) (d : Detector) (frame : Frame)
    (cs : List Contour) (hg : GoodContours w h cs)
    (hprev : ∀ p, d.prev_pos = some p → InBoundsPt w h p) :
    (∀ p, (detect_laser d frame cs).1 = some p → InBoundsPt w h p) ∧
    (∀ p, ((detect_laser d frame cs).2).prev_pos = some p → InBoundsPt w h p) := by
  cases hsel : selectBrightest d (cvtColorGray frame) cs with
  | none =>
    have hcall : detect_laser d frame cs = (none, d) := by
      rw [detect_laser_spec, hsel]
    rw [hcall]
    constructor
    · intro p hp; exact absurd hp (by simp)
    · intro p hp; exact hprev p hp
  | some cb =>
    obtain ⟨c, b⟩ := cb
    by_cases hm : c.m00 = 0
    · have hcall : detect_laser d frame cs = (none, d) := by
        rw [detect_laser_spec, hsel]
        simp [hm]
      rw [hcall]
      constructor
      · intro p hp; exact absurd hp (by simp)
      · intro p hp; exact hprev p hp
    · have hc : c ∈ cs := (mem_validPairs.mp (maxByKey_mem Prod.snd hsel)).1
      have hcb := hg c hc hm
      have hcx : 0 ≤ (centroidOf c).1 ∧ (centroidOf c).1 < (w : Int) :=
        pyInt_bounds hcb.1.1 hcb.1.2
      have hcy : 0 ≤ (centroidOf c).2 ∧ (centroidOf c).2 < (h : Int) :=
        pyInt_bounds hcb.2.1 hcb.2.2
      cases hp : d.prev_pos with
      | none =>
        have hcall : detect_laser d frame cs =
            (some (centroidOf c), { d with prev_pos := some (centroidOf c) }) := by
          rw [detect_laser_spec, hsel]
          simp [hm, hp]
        rw [hcall]
        constructor
        · intro p hpp
          obtain rfl : centroidOf c = p := Option.some.inj hpp
          exact ⟨hcx.1, hcx.2, hcy.1, hcy.2⟩
        · intro p hpp
          obtain rfl : centroidOf c = p := Option.some.inj hpp
          exact ⟨hcx.1, hcx.2, hcy.1, hcy.2⟩
      | some prev =>
        have hprevB : InBoundsPt w h prev := hprev prev hp
        have hbx := blend_bounds hcx.1 hcx.2 hprevB.1 hprevB.2.1
        have hby := blend_bounds hcy.1 hcy.2 hprevB.2.2.1 hprevB.2.2.2
        have hcall : detect_laser d frame cs =
            (some (blend (centroidOf c).1 prev.1, blend (centroidOf c).2 prev.2),
              { d with prev_pos := some (blend (centroidOf c).1 prev.1, blend (centroidOf c).2 prev.2) }) := by
          rw [detect_laser_spec, hsel]
          simp [hm, hp]
        rw [hcall]
        constructor
        · intro p hpp
          obtain rfl : (blend (centroidOf c).1 prev.1, blend (centroidOf c).2 prev.2) = p :=
            Option.some.inj hpp
          exact ⟨hbx.1, hbx.2, hby.1, hby.2⟩
        · intro p hpp
          obtain rfl : (blend (centroidOf c).1 prev.1, blend (centroidOf c).2 prev.2) = p :=
            Option.some.inj hpp
          exact ⟨hbx.1, hbx.2, hby.1, hby.2⟩

/-- The bounds invariant threaded through a whole run of the detector. -/
lemma runDetect_inbounds (w h : Nat) :
    ∀ (inputs : List (Frame × List Contour)) (d : Detector),
      (∀ i ∈ inputs, GoodContours w h i.2) →
      (∀ p, d.prev_pos = some p → InBoundsPt w h p) →
      (∀ r ∈ (runDetect d inputs).1, ∀ p, r = some p → InBoundsPt w h p) ∧
      (∀ p, ((runDetect d inputs).2).prev_pos = some p → InBoundsPt w h p) := by
  intro inputs
  induction inputs with
  | nil =>
    intro d hg hprev
    constructor
    · intro r hr; exact absurd hr (List.not_mem_nil r)
    · exact hprev
  | cons i rest ih =>
    intro d hg hprev
    obtain ⟨f, cs⟩ := i
    have hstep := detect_laser_step_inbounds w h d f cs
      (hg (f, cs) (List.mem_cons_self _ _)) hprev
    have hrest := ih (detect_laser d f cs).2
      (fun j hj => hg j (List.mem_cons_of_mem _ hj)) hstep.2
    have hcons : runDetect d ((f, cs) :: rest) =
        ((detect_laser d f cs).1 :: (runDetect (detect_laser d f cs).2 rest).1,
          (runDetect (detect_laser d f cs).2 rest).2) := rfl
    rw [hcons]
    constructor
    · intro r hr p hrp
      rcases List.mem_cons.mp hr with h1 | h1
      · exact hstep.1 p (h1 ▸ hrp)
      · exact hrest.1 r h1 p hrp
    · exact hrest.2

end Bounds

/-- C8: starting from a fresh detector and feeding frames of fixed
dimensions whose extracted contours have in-grid centroids, every
coordinate `detect_laser` returns, and the stored previous position,
is a pair of non-negative integers within the frame bounds; the 70/30
blend preserves the invariant across calls. -/
theorem laser_coords_in_bounds (w h : Nat) (d : Detector)
    (inputs : List (Frame × List Contour))
    (hfresh : d.prev_pos = none)
    (hdim : ∀ i ∈ inputs, i.1.w = w ∧ i.1.h = h)
    (hgood : ∀ i ∈ inputs, GoodContours w h i.2) :
    (∀ r ∈ (runDetect d inputs).1, ∀ p, r = some p → InBoundsPt w h p) ∧
    (∀ p, ((runDetect d inputs).2).prev_pos = some p → InBoundsPt w h p) :=
  runDetect_inbounds w h inputs d hgood
    (fun p hp => absurd (hfresh ▸ hp) (by simp))

/-- C8 witness: a one-frame run from a fresh detector returns the
in-bounds coordinate (2, 3) on a 10 by 10 frame. -/
theorem laser_coords_in_bounds_witness :
    (runDetect d0 [(frame0, [c0])]).1 = [some (2, 3)] ∧ InBoundsPt 10 10 (2, 3) := by
  have hsel : selectBrightest d0 (cvtColorGray frame0) [c0] =
      some (c0, avgBrightness (cvtColorGray frame0) c0) := by
    simp only [selectBrightest, validPairs, List.filterMap, maxByKey]
    norm_num [d0, mkDetector, c0]
  have hcall : detect_laser d0 frame0 [c0] =
      (some (2, 3), { d0 with prev_pos := some (2, 3) }) := by
    rw [detect_laser_spec, hsel]
    norm_num [d0, mkDetector, c0, centroidOf, pyInt]
  have hrun : (runDetect d0 [(frame0, [c0])]).1 = [some (2, 3)] := by
    have hsh : (runDetect d0 [(frame0, [c0])]).1 =
        (detect_laser d0 frame0 [c0]).1 ::
          (runDetect (detect_laser d0 frame0 [c0]).2 []).1 := rfl
    rw [hsh, hcall]
    rfl
  refine ⟨hrun, ?_⟩
  refine (laser_coords_in_bounds 10 10 d0 [(frame0, [c0])] rfl ?_ ?_).1
    (some (2, 3)) (by rw [hrun]; exact List.mem_singleton.mpr rfl) (2, 3) rfl
  · intro i hi
    rcases List.mem_singleton.mp hi with rfl
    exact ⟨rfl, rfl⟩
  · intro i hi
    rcases List.mem_singleton.mp hi with rfl
    intro c hc hm
    rcases List.mem_singleton.mp hc with rfl
    norm_num [c0]
